import Mathlib

/-!
Shallow embedding of the polling application's persistent data model and its
repository operations (src/app.py).  The SQLite database is modelled as an
explicit state (`DB`): three tables as lists of rows plus the AUTOINCREMENT
counters for their integer primary keys.  Timestamps (`created_at`, an ISO
string in the source whose lexicographic order agrees with chronological
order) are modelled as natural numbers supplied by the caller, standing for
the clock reading at the moment of the call.
-/

namespace Menti

/-- Row of the `questions` table: `id, question_text, created_at, meta`. -/
structure QuestionRow where
  id : Int
  question_text : String
  created_at : Nat
  meta : Option String
deriving DecidableEq

/-- Row of the `options` table: `id, question_id, option_text`. -/
structure OptionRow where
  id : Int
  question_id : Int
  option_text : String
deriving DecidableEq

/-- Row of the `votes` table: `id, question_id, option_id, created_at`. -/
structure VoteRow where
  id : Int
  question_id : Int
  option_id : Int
  created_at : Nat
deriving DecidableEq

/-- Database state: the three tables plus the next AUTOINCREMENT id of each. -/
@[ext]
structure DB where
  questions : List QuestionRow
  options : List OptionRow
  votes : List VoteRow
  next_qid : Int
  next_oid : Int
  next_vid : Int
deriving DecidableEq

/-- Freshly created database (after `ensure_schema` on an empty file);
SQLite AUTOINCREMENT assigns 1 to the first inserted row. -/
def initDB : DB := ⟨[], [], [], 1, 1, 1⟩

/-- The loop `for opt in options_list: INSERT INTO options ...` of
`insert_question_with_options`: each iteration stores one option row for
question `qid`, consuming consecutive AUTOINCREMENT ids starting at `oid`. -/
def insertOptionsLoop (qid : Int) (oid : Int) : List String → List OptionRow
  | [] => []
  | s :: rest => ⟨oid, qid, s⟩ :: insertOptionsLoop qid (oid + 1) rest

/-- The source's `insert_question_with_options(question_text, options_list, meta)`:
inserts one question row (id = fresh AUTOINCREMENT value) and one option row
per list entry, in input order; returns the new question id with the new state.
`meta` is the JSON-encoded metadata text (or NULL) and `t` the clock reading. -/
def insert_question_with_options (question_text : String) (options_list : List String)
    (meta : Option String) (t : Nat) (db : DB) : Int × DB :=
  (db.next_qid,
    { questions := db.questions ++ [⟨db.next_qid, question_text, t, meta⟩]
      options := db.options ++ insertOptionsLoop db.next_qid db.next_oid options_list
      votes := db.votes
      next_qid := db.next_qid + 1
      next_oid := db.next_oid + options_list.length
      next_vid := db.next_vid })

/-- Relation used by `ORDER BY id` on option rows. -/
def optLe (a b : OptionRow) : Prop := a.id ≤ b.id

instance : DecidableRel optLe := fun a b => Int.decLe a.id b.id

/-- The `SELECT ... FROM options ... ORDER BY id` ordering. -/
def sortOptionsById (l : List OptionRow) : List OptionRow := l.insertionSort optLe

/-- One option of the dictionary returned by `get_question`. -/
structure OptionView where
  id : Int
  text : String
deriving DecidableEq

/-- Dictionary returned by `get_question`. -/
structure Question where
  id : Int
  question_text : String
  created_at : Nat
  meta : Option String
  options : List OptionView
deriving DecidableEq

/-- The source's `get_question(qid)`: the matching question row together with
its options ordered by ascending option id, or `none` if no row matches. -/
def get_question (qid : Int) (db : DB) : Option Question :=
  match db.questions.find? (fun q => q.id == qid) with
  | none => none
  | some row =>
    some { id := row.id, question_text := row.question_text,
           created_at := row.created_at, meta := row.meta,
           options := (sortOptionsById
               (db.options.filter (fun o => o.question_id == qid))).map
             (fun o => ⟨o.id, o.option_text⟩) }

/-- Relation used by `ORDER BY created_at DESC` on `(id, text, created_at)`
triples: a row sorts before another when it was created no earlier. -/
def qLater (a b : Int × String × Nat) : Prop := b.2.2 ≤ a.2.2

instance : DecidableRel qLater := fun a b => Nat.decLe b.2.2 a.2.2

instance : IsTotal (Int × String × Nat) qLater := ⟨fun a b => Nat.le_total b.2.2 a.2.2⟩

instance : IsTrans (Int × String × Nat) qLater := ⟨fun _ _ _ h1 h2 => Nat.le_trans h2 h1⟩

/-- The source's `get_all_questions()`: all `(id, question_text, created_at)`
triples, ordered by `created_at` descending. -/
def get_all_questions (db : DB) : List (Int × String × Nat) :=
  (db.questions.map (fun q => (q.id, q.question_text, q.created_at))).insertionSort qLater

/-- The source's `record_vote(question_id, option_id)`: unconditionally inserts
one vote row with a fresh id and clock reading `t`.  No validation of the
`(question_id, option_id)` pair is performed. -/
def record_vote (question_id option_id : Int) (t : Nat) (db : DB) : DB :=
  { db with votes := db.votes ++ [⟨db.next_vid, question_id, option_id, t⟩]
            next_vid := db.next_vid + 1 }

/-- One row of the `get_results` answer. -/
structure ResultRow where
  option_text : String
  count : Nat
  option_id : Int
deriving DecidableEq

/-- The source's `get_results(question_id)`: one row per option of the
question (ids are primary keys, so the SQL `GROUP BY o.id, o.option_text`
groups per option row), ordered by option id; the LEFT JOIN counts the votes
whose `option_id` matches the row and whose `question_id` is the argument. -/
def get_results (question_id : Int) (db : DB) : List ResultRow :=
  (sortOptionsById (db.options.filter (fun o => o.question_id == question_id))).map
    (fun o => ⟨o.option_text,
               (db.votes.filter
                 (fun v => v.option_id == o.id && v.question_id == question_id)).length,
               o.id⟩)

/-- The source's `delete_question(question_id)`: deletes the matching votes,
then the matching options, then the question row itself. -/
def delete_question (question_id : Int) (db : DB) : DB :=
  { db with votes := db.votes.filter (fun v => v.question_id != question_id)
            options := db.options.filter (fun o => o.question_id != question_id)
            questions := db.questions.filter (fun q => q.id != question_id) }

/-! Traces of repository write operations, for reachability statements. -/

/-- One repository write call. -/
inductive Op where
  | insert (question_text : String) (options_list : List String)
      (meta : Option String) (t : Nat)
  | vote (question_id option_id : Int) (t : Nat)
  | delete (question_id : Int)
deriving DecidableEq

/-- Effect of one repository call on the database state. -/
def runOp (db : DB) : Op → DB
  | .insert qt ol m t => (insert_question_with_options qt ol m t db).2
  | .vote q o t => record_vote q o t db
  | .delete q => delete_question q db

/-- State after executing a trace of repository calls from the fresh database. -/
def run (ops : List Op) : DB := ops.foldl runOp initDB

/-- A state is reachable when some trace of repository calls produces it. -/
def Reachable (db : DB) : Prop := ∃ ops, run ops = db

/-- Test (boolean) that some option row has the given id and belongs to the
given question — the validation `record_vote` does NOT perform. -/
def optionBelongs (db : DB) (question_id option_id : Int) : Bool :=
  db.options.any (fun o => o.id == option_id && o.question_id == question_id)

/-- A trace is valid when each of its `record_vote` calls passes the
`optionBelongs` check in the state where it executes. -/
def validOps : DB → List Op → Bool
  | _, [] => true
  | db, op :: rest =>
    (match op with
     | .vote q o _ => optionBelongs db q o
     | _ => true) && validOps (runOp db op) rest

/-- Referential integrity of votes: every vote row references an option row
whose id is the vote's `option_id` and whose `question_id` is the vote's. -/
def VoteIntegrity (db : DB) : Prop :=
  ∀ v ∈ db.votes, ∃ o ∈ db.options, o.id = v.option_id ∧ o.question_id = v.question_id

instance (db : DB) : Decidable (VoteIntegrity db) := by
  unfold VoteIntegrity; exact List.decidableBAll _ _

/-- The question with the given id exists in the `questions` table. -/
def hasQuestion (db : DB) (qid : Int) : Prop := ∃ q ∈ db.questions, q.id = qid

instance (db : DB) (qid : Int) : Decidable (hasQuestion db qid) := by
  unfold hasQuestion; exact List.decidableBEx _ _

/-- Structural well-formedness every reachable state enjoys: AUTOINCREMENT
counters bound the stored ids, ids are primary keys (no duplicates), and
every option row references an existing question row. -/
structure GoodState (db : DB) : Prop where
  q_bound : ∀ q ∈ db.questions, q.id < db.next_qid
  o_bound : ∀ o ∈ db.options, o.id < db.next_oid
  o_ref : ∀ o ∈ db.options, ∃ q ∈ db.questions, q.id = o.question_id
  o_nodup : (db.options.map OptionRow.id).Nodup
  q_nodup : (db.questions.map QuestionRow.id).Nodup

/-- Number of stored vote rows carrying the given `question_id`. -/
def votesFor (db : DB) (qid : Int) : Nat :=
  (db.votes.filter (fun v => v.question_id == qid)).length

/-- Number of `record_vote` calls of a trace carrying the given `question_id`. -/
def votedCount (ops : List Op) (qid : Int) : Nat :=
  (ops.filter (fun op => match op with
     | .vote q _ _ => q == qid
     | _ => false)).length

/-- Sum of the `count` fields of a results list over the rows carrying the
given option id. -/
def resultCount (rs : List ResultRow) (oid : Int) : Nat :=
  ((rs.filter (fun r => r.option_id == oid)).map ResultRow.count).sum

/-! Public QR voting mode (the `if "q" in query_params:` block). -/

/-- Outcome of the public vote request handler, up to its `st.stop()`. -/
inductive ViewOutcome where
  | invalidId
  | notFound
  | showQuestion (q : Question)
deriving DecidableEq

/-- Decimal value of one character, `none` when it is not a digit. -/
def digVal (c : Char) : Option Nat :=
  if c.isDigit then some (c.toNat - '0'.toNat) else none

/-- Accumulating decimal parse of a character list; fails on any non-digit. -/
def parseDigits : List Char → Nat → Option Nat
  | [], acc => some acc
  | c :: rest, acc =>
    match digVal c with
    | none => none
    | some d => parseDigits rest (acc * 10 + d)

/-- Model of Python's `int(str)`: an optional sign followed by at least one
decimal digit; anything else raises (returns `none` here). -/
def parseInt (s : String) : Option Int :=
  match s.data with
  | [] => none
  | '-' :: rest =>
    match rest with
    | [] => none
    | _ => (parseDigits rest 0).map (fun n => -(n : Int))
  | '+' :: rest =>
    match rest with
    | [] => none
    | _ => (parseDigits rest 0).map (fun n => (n : Int))
  | l => (parseDigits l 0).map (fun n => (n : Int))

/-- The public vote mode for a request whose `q` query parameter is `qstr`:
`int(query_params["q"])` (modelled by `parseInt`; any parse failure is
caught) yields "Invalid question id." and stops; an id with no matching
question yields "Question not found." and stops; otherwise the vote form for
the question is shown.  The returned state is the database after the handler:
no path up to the form reaches `record_vote`. -/
def public_vote_view (qstr : String) (db : DB) : ViewOutcome × DB :=
  match parseInt qstr with
  | none => (ViewOutcome.invalidId, db)
  | some qid =>
    match get_question qid db with
    | none => (ViewOutcome.notFound, db)
    | some q => (ViewOutcome.showQuestion q, db)

/-! Upload Questions screen.  An uploaded spreadsheet is modelled as parsed by
the external reader: a header row plus data rows of cells, where a cell is
`none` for a missing value (pandas NA) and `some s` for textual content `s`. -/

/-- A parsed spreadsheet: column headers and data rows of cells. -/
structure DataFrame where
  headers : List String
  rows : List (List (Option String))
deriving DecidableEq

/-- Python's `str(v)` on a cell value: a missing value (NaN) renders as the
text "nan"; textual content renders as itself. -/
def pyStrCell : Option String → String
  | none => "nan"
  | some s => s

/-- Python's `str.strip()`: drop leading and trailing whitespace. -/
def pyStrip (s : String) : String :=
  String.mk (((s.data.dropWhile Char.isWhitespace).reverse.dropWhile
    Char.isWhitespace).reverse)

/-- The row's question text, `str(row["Question"]).strip()`: label access on
the row picks the (first) column named "Question". -/
def rowQText (df : DataFrame) (row : List (Option String)) : String :=
  match df.headers.findIdx? (fun h => h == "Question") with
  | some i => pyStrip (pyStrCell (row.getD i none))
  | none => ""

/-- The row's options, `[str(v).strip() for v in row[1:] if pd.notna(v) and
str(v).strip()]`: the positional slice drops the first cell; missing and
blank cells are skipped; kept cells are stripped. -/
def rowOptions (row : List (Option String)) : List String :=
  (row.drop 1).filterMap (fun c =>
    match c with
    | none => none
    | some s => if pyStrip s = "" then none else some (pyStrip s))

/-- The file-acceptance check `if "Question" not in df.columns: st.error(...)`:
the upload proceeds exactly when some column header is "Question". -/
def uploadAccepts (df : DataFrame) : Bool := df.headers.contains "Question"

/-- The "Save Questions" loop: `none` when the file is rejected, otherwise the
`(question_text, options)` pairs passed to `insert_question_with_options`,
one per row whose question text is non-empty and which has at least 2 options. -/
def processUpload (df : DataFrame) : Option (List (String × List String)) :=
  if uploadAccepts df then
    some (df.rows.filterMap (fun row =>
      if rowQText df row ≠ "" ∧ 2 ≤ (rowOptions row).length then
        some (rowQText df row, rowOptions row)
      else none))
  else none

/-! Schema manager (`ensure_schema`), over a generic storage state: named
tables, each a column list plus stored rows. -/

/-- A stored table: its declared columns and its rows. -/
structure Table where
  cols : List String
  rows : List (List String)
deriving DecidableEq

/-- Storage state: the catalog of tables, in creation order. -/
structure Storage where
  tables : List (String × Table)
deriving DecidableEq

/-- Name lookup in a table catalog. -/
def lookupAssoc : List (String × Table) → String → Option Table
  | [], _ => none
  | (n, t) :: rest, m => if n == m then some t else lookupAssoc rest m

/-- The `SELECT name FROM sqlite_master WHERE name=?` existence check,
combined with `PRAGMA table_info` via the stored column list. -/
def lookupTable (s : Storage) (name : String) : Option Table :=
  lookupAssoc s.tables name

/-- The `DROP TABLE` statement. -/
def dropTable (s : Storage) (name : String) : Storage :=
  ⟨s.tables.filter (fun p => p.1 != name)⟩

/-- The `CREATE TABLE IF NOT EXISTS` statement: a fresh empty table with the
given columns when absent, no change when a table of that name exists. -/
def createTableIfNotExists (s : Storage) (name : String) (cols : List String) : Storage :=
  match lookupTable s name with
  | some _ => s
  | none => ⟨s.tables ++ [(name, ⟨cols, []⟩)]⟩

/-- Columns of the current `questions` table. -/
def questionsCols : List String := ["id", "question_text", "created_at", "meta"]

/-- Columns of the current `options` table. -/
def optionsCols : List String := ["id", "question_id", "option_text"]

/-- Columns of the current `votes` table. -/
def votesCols : List String := ["id", "question_id", "option_id", "created_at"]

/-- The source's `ensure_schema()`: drop a legacy `votes` table lacking an
`id` column, then create each of the three tables if absent. -/
def ensure_schema (s : Storage) : Storage :=
  let s1 :=
    match lookupTable s "votes" with
    | some t => if "id" ∈ t.cols then s else dropTable s "votes"
    | none => s
  let s2 := createTableIfNotExists s1 "questions" questionsCols
  let s3 := createTableIfNotExists s2 "options" optionsCols
  createTableIfNotExists s3 "votes" votesCols

/-- The storage carries the current three-table schema. -/
def hasCurrentSchema (s : Storage) : Prop :=
  (lookupTable s "questions").map Table.cols = some questionsCols ∧
  (lookupTable s "options").map Table.cols = some optionsCols ∧
  (lookupTable s "votes").map Table.cols = some votesCols

instance (s : Storage) : Decidable (hasCurrentSchema s) := by
  unfold hasCurrentSchema; infer_instance

/-- What `ensure_schema` establishes: the three tables exist and the `votes`
table has an `id` column. -/
def ensured (s : Storage) : Prop :=
  (lookupTable s "questions").isSome ∧
  (lookupTable s "options").isSome ∧
  ∃ t, lookupTable s "votes" = some t ∧ "id" ∈ t.cols

/-! Concrete states used by the witnesses. -/

/-- A database holding one question (id 1) with two options (ids 1 and 2). -/
def dbEx : DB := run [Op.insert "Pick one" ["A", "B"] none 0]

/-- A trace that creates a question and records one valid vote for it. -/
def opsEx : List Op := [Op.insert "Pick one" ["A", "B"] none 0, Op.vote 1 1 1]

/-- A trace whose second call records a vote for question 1 with an option id
(99) that belongs to no option row. -/
def opsBad : List Op := [Op.insert "Pick one" ["A", "B"] none 0, Op.vote 1 99 1]

/-- A storage already carrying the current three-table schema. -/
def storEx : Storage :=
  ⟨[("questions", ⟨questionsCols, []⟩), ("options", ⟨optionsCols, []⟩),
    ("votes", ⟨votesCols, []⟩)]⟩

/-- A spreadsheet whose "Question" header is in the second column, not the
first. -/
def dfEx : DataFrame :=
  ⟨["Extra", "Question"], [[some "x", some "Pick one"]]⟩

/-- A well-formed spreadsheet: "Question" first, one row with two options. -/
def dfOk : DataFrame :=
  ⟨["Question", "Option1", "Option2"], [[some "Pick one", some "A", some "B"]]⟩

/-! Helper lemmas about the option-insertion loop. -/

theorem insertOptionsLoop_mem {qid base : Int} {l : List String} {o : OptionRow}
    (h : o ∈ insertOptionsLoop qid base l) :
    o.question_id = qid ∧ base ≤ o.id ∧ o.id < base + l.length := by
  induction l generalizing base with
  | nil => simp [insertOptionsLoop] at h
  | cons s rest ih =>
    simp only [insertOptionsLoop, List.mem_cons] at h
    rcases h with h | h
    · subst h
      refine ⟨rfl, le_refl _, ?_⟩
      simp only [List.length_cons]
      omega
    · obtain ⟨h1, h2, h3⟩ := ih h
      refine ⟨h1, by omega, ?_⟩
      simp only [List.length_cons]
      omega

theorem insertOptionsLoop_map_text (qid base : Int) (l : List String) :
    (insertOptionsLoop qid base l).map OptionRow.option_text = l := by
  induction l generalizing base with
  | nil => rfl
  | cons s rest ih => simp [insertOptionsLoop, ih]

theorem insertOptionsLoop_pairwise (qid base : Int) (l : List String) :
    List.Pairwise (fun a b : OptionRow => a.id < b.id) (insertOptionsLoop qid base l) := by
  induction l generalizing base with
  | nil => exact List.Pairwise.nil
  | cons s rest ih =>
    refine List.pairwise_cons.mpr ⟨?_, ih (base + 1)⟩
    intro o ho
    have hm := insertOptionsLoop_mem ho
    show base < o.id
    omega

theorem insertOptionsLoop_sorted (qid base : Int) (l : List String) :
    List.Sorted optLe (insertOptionsLoop qid base l) :=
  (insertOptionsLoop_pairwise qid base l).imp (fun h => le_of_lt h)

theorem insertOptionsLoop_ids_nodup (qid base : Int) (l : List String) :
    ((insertOptionsLoop qid base l).map OptionRow.id).Nodup :=
  (List.pairwise_map.mpr (insertOptionsLoop_pairwise qid base l)).imp
    (fun h => ne_of_lt h)

theorem insertOptionsLoop_filter_self (qid base : Int) (l : List String) :
    (insertOptionsLoop qid base l).filter (fun o => o.question_id == qid) =
      insertOptionsLoop qid base l := by
  rw [List.filter_eq_self]
  intro o ho
  have h := (insertOptionsLoop_mem ho).1
  simp [h]

theorem find_append_left_none {α : Type} (p : α → Bool) (l₁ l₂ : List α)
    (h : ∀ x ∈ l₁, p x = false) : (l₁ ++ l₂).find? p = l₂.find? p := by
  rw [List.find?_append]
  have hn : l₁.find? p = none := List.find?_eq_none.mpr (by intro x hx; simp [h x hx])
  simp [hn]

/-! Preservation of the structural invariant by every repository call. -/

theorem goodState_initDB : GoodState initDB := by
  constructor <;> simp [initDB]

theorem goodState_insert {db : DB} (qt : String) (ol : List String) (m : Option String)
    (t : Nat) (h : GoodState db) :
    GoodState (insert_question_with_options qt ol m t db).2 := by
  obtain ⟨hqb, hob, href, hond, hqnd⟩ := h
  dsimp only [insert_question_with_options]
  constructor
  · intro q hq
    rw [List.mem_append, List.mem_singleton] at hq
    rcases hq with hq | hq
    · have := hqb q hq; dsimp only; omega
    · subst hq; show db.next_qid < db.next_qid + 1; omega
  · intro o ho
    rw [List.mem_append] at ho
    rcases ho with ho | ho
    · have := hob o ho; dsimp only; omega
    · exact (insertOptionsLoop_mem ho).2.2
  · intro o ho
    rw [List.mem_append] at ho
    rcases ho with ho | ho
    · obtain ⟨q, hq, hqe⟩ := href o ho
      exact ⟨q, List.mem_append_left _ hq, hqe⟩
    · refine ⟨⟨db.next_qid, qt, t, m⟩, List.mem_append_right _ (List.mem_singleton.mpr rfl), ?_⟩
      exact ((insertOptionsLoop_mem ho).1).symm
  · rw [List.map_append, List.nodup_append]
    refine ⟨hond, insertOptionsLoop_ids_nodup _ _ _, ?_⟩
    intro a ha hb
    rw [List.mem_map] at ha hb
    obtain ⟨o1, ho1, he1⟩ := ha
    obtain ⟨o2, ho2, he2⟩ := hb
    have h1 := hob o1 ho1
    have h2 := (insertOptionsLoop_mem ho2).2.1
    omega
  · rw [List.map_append, List.nodup_append]
    refine ⟨hqnd, List.nodup_singleton _, ?_⟩
    intro a ha hb
    rw [List.mem_map] at ha
    obtain ⟨q1, hq1, he1⟩ := ha
    rw [List.map_singleton, List.mem_singleton] at hb
    dsimp only at hb
    have h1 := hqb q1 hq1
    omega

theorem goodState_vote {db : DB} (q o : Int) (t : Nat) (h : GoodState db) :
    GoodState (record_vote q o t db) := by
  obtain ⟨h1, h2, h3, h4, h5⟩ := h
  exact ⟨h1, h2, h3, h4, h5⟩

theorem goodState_delete {db : DB} (qd : Int) (h : GoodState db) :
    GoodState (delete_question qd db) := by
  obtain ⟨hqb, hob, href, hond, hqnd⟩ := h
  dsimp only [delete_question]
  constructor
  · intro q hq
    exact hqb q (List.mem_filter.mp hq).1
  · intro o ho
    exact hob o (List.mem_filter.mp ho).1
  · intro o ho
    have ho' := List.mem_filter.mp ho
    obtain ⟨q, hq, hqe⟩ := href o ho'.1
    refine ⟨q, List.mem_filter.mpr ⟨hq, ?_⟩, hqe⟩
    rw [hqe]
    exact ho'.2
  · exact hond.sublist ((List.filter_sublist _).map _)
  · exact hqnd.sublist ((List.filter_sublist _).map _)

theorem goodState_runOp {db : DB} (op : Op) (h : GoodState db) : GoodState (runOp db op) := by
  cases op with
  | insert qt ol m t => exact goodState_insert qt ol m t h
  | vote q o t => exact goodState_vote q o t h
  | delete q => exact goodState_delete q h

theorem goodState_foldl (ops : List Op) :
    ∀ db, GoodState db → GoodState (ops.foldl runOp db) := by
  induction ops with
  | nil => intro db h; exact h
  | cons op rest ih => intro db h; exact ih _ (goodState_runOp op h)

theorem goodState_run (ops : List Op) : GoodState (run ops) :=
  goodState_foldl ops initDB goodState_initDB

/-! Preservation of vote referential integrity along valid traces. -/

theorem voteIntegrity_initDB : VoteIntegrity initDB := by
  intro v hv
  simp [initDB] at hv

theorem voteIntegrity_insert {db : DB} (qt : String) (ol : List String)
    (m : Option String) (t : Nat) (h : VoteIntegrity db) :
    VoteIntegrity (insert_question_with_options qt ol m t db).2 := by
  intro v hv
  dsimp only [insert_question_with_options] at hv ⊢
  obtain ⟨o, ho, h1, h2⟩ := h v hv
  exact ⟨o, List.mem_append_left _ ho, h1, h2⟩

theorem voteIntegrity_vote {db : DB} {q o : Int} (t : Nat) (h : VoteIntegrity db)
    (hb : optionBelongs db q o = true) : VoteIntegrity (record_vote q o t db) := by
  intro v hv
  dsimp only [record_vote] at hv
  rw [List.mem_append] at hv
  rcases hv with hv | hv
  · exact h v hv
  · rw [List.mem_singleton] at hv
    subst hv
    dsimp only [optionBelongs] at hb
    rw [List.any_eq_true] at hb
    obtain ⟨orow, ho, hpo⟩ := hb
    rw [Bool.and_eq_true, beq_iff_eq, beq_iff_eq] at hpo
    exact ⟨orow, ho, hpo.1, hpo.2⟩

theorem voteIntegrity_delete {db : DB} (qd : Int) (h : VoteIntegrity db) :
    VoteIntegrity (delete_question qd db) := by
  intro v hv
  dsimp only [delete_question] at hv ⊢
  have hv' := List.mem_filter.mp hv
  obtain ⟨o, ho, h1, h2⟩ := h v hv'.1
  refine ⟨o, List.mem_filter.mpr ⟨ho, ?_⟩, h1, h2⟩
  rw [h2]
  exact hv'.2

theorem voteIntegrity_foldl (ops : List Op) :
    ∀ db, VoteIntegrity db → validOps db ops = true →
      VoteIntegrity (ops.foldl runOp db) := by
  induction ops with
  | nil => intro db h _; exact h
  | cons op rest ih =>
    intro db h hv
    cases op with
    | insert qt ol m t =>
      simp only [validOps, Bool.and_eq_true] at hv
      exact ih _ (voteIntegrity_insert qt ol m t h) hv.2
    | vote q o t =>
      simp only [validOps, Bool.and_eq_true] at hv
      exact ih _ (voteIntegrity_vote t h hv.1) hv.2
    | delete q =>
      simp only [validOps, Bool.and_eq_true] at hv
      exact ih _ (voteIntegrity_delete q h) hv.2

theorem voteIntegrity_run (ops : List Op) (h : validOps initDB ops = true) :
    VoteIntegrity (run ops) :=
  voteIntegrity_foldl ops initDB voteIntegrity_initDB h

/-! Counting lemmas: the per-option vote counts of `get_results` add up to the
number of stored vote rows of the question. -/

theorem length_filter_or_disjoint {α : Type} (p q : α → Bool) (l : List α)
    (h : ∀ x ∈ l, ¬(p x = true ∧ q x = true)) :
    (l.filter (fun x => p x || q x)).length = (l.filter p).length + (l.filter q).length := by
  induction l with
  | nil => rfl
  | cons a l ih =>
    have hl : ∀ x ∈ l, ¬(p x = true ∧ q x = true) :=
      fun x hx => h x (List.mem_cons_of_mem a hx)
    have hih := ih hl
    by_cases hp : p a = true
    · have hq : q a = false := by
        cases hqv : q a
        · rfl
        · exact absurd ⟨hp, hqv⟩ (h a (List.mem_cons_self a l))
      simp [List.filter_cons, hp, hq, hih]
      omega
    · rw [Bool.not_eq_true] at hp
      cases hqv : q a
      · simp [List.filter_cons, hp, hqv, hih]
      · simp [List.filter_cons, hp, hqv, hih]
        omega

theorem sum_option_counts (qid : Int) (votes : List VoteRow) :
    ∀ os : List OptionRow, (os.map OptionRow.id).Nodup →
      (os.map (fun o => (votes.filter
          (fun v => v.option_id == o.id && v.question_id == qid)).length)).sum
        = (votes.filter (fun v =>
            (os.map OptionRow.id).contains v.option_id && v.question_id == qid)).length := by
  intro os
  induction os with
  | nil =>
    intro _
    simp [List.filter]
  | cons o os ih =>
    intro hnd
    rw [List.map_cons, List.nodup_cons] at hnd
    rw [List.map_cons, List.map_cons, List.sum_cons, ih hnd.2]
    have hcongr : ∀ v ∈ votes,
        ((o.id :: os.map OptionRow.id).contains v.option_id && v.question_id == qid)
          = ((fun v : VoteRow => v.option_id == o.id && v.question_id == qid) v
             || (fun v : VoteRow =>
                  (os.map OptionRow.id).contains v.option_id && v.question_id == qid) v) := by
      intro v _
      rw [List.contains_cons, Bool.and_or_distrib_right]
    rw [List.filter_congr hcongr, length_filter_or_disjoint]
    intro v _ hcon
    obtain ⟨h1, h2⟩ := hcon
    rw [Bool.and_eq_true, beq_iff_eq] at h1
    rw [Bool.and_eq_true] at h2
    refine hnd.1 ?_
    rw [← h1.1]
    exact List.elem_iff.mp h2.1

theorem get_results_counts_sum {db : DB} (qid : Int)
    (good : GoodState db) (integ : VoteIntegrity db) :
    ((get_results qid db).map ResultRow.count).sum = votesFor db qid := by
  dsimp only [get_results]
  rw [List.map_map]
  simp only [Function.comp_def]
  have hperm : List.Perm (sortOptionsById (db.options.filter (fun o => o.question_id == qid)))
      (db.options.filter (fun o => o.question_id == qid)) :=
    List.perm_insertionSort optLe _
  have hnd : ((db.options.filter (fun o => o.question_id == qid)).map OptionRow.id).Nodup :=
    good.o_nodup.sublist ((List.filter_sublist _).map _)
  have hnds : ((sortOptionsById
      (db.options.filter (fun o => o.question_id == qid))).map OptionRow.id).Nodup :=
    (hperm.map OptionRow.id).nodup_iff.mpr hnd
  rw [(hperm.map _).sum_eq]
  rw [sum_option_counts qid db.votes _ hnd]
  dsimp only [votesFor]
  refine congrArg List.length (List.filter_congr ?_)
  intro v hv
  cases hq : (v.question_id == qid)
  · rw [Bool.and_false]
  · rw [Bool.and_true]
    rw [beq_iff_eq] at hq
    obtain ⟨o, ho, h1, h2⟩ := integ v hv
    have hof : o ∈ db.options.filter (fun o => o.question_id == qid) := by
      rw [List.mem_filter]
      exact ⟨ho, by rw [h2, hq]; exact beq_self_eq_true qid⟩
    have : v.option_id ∈ (db.options.filter
        (fun o => o.question_id == qid)).map OptionRow.id := by
      rw [← h1]
      exact List.mem_map_of_mem OptionRow.id hof
    exact List.elem_eq_true_of_mem this

/-! Step lemmas for the per-question stored-vote count. -/

theorem votesFor_vote (db : DB) (q o : Int) (t : Nat) (qid : Int) :
    votesFor (record_vote q o t db) qid
      = votesFor db qid + (if q = qid then 1 else 0) := by
  dsimp only [votesFor, record_vote]
  rw [List.filter_append, List.length_append]
  congr 1
  by_cases h : q = qid
  · subst h; simp [List.filter]
  · have hb : (q == qid) = false := by simp [h]
    simp [List.filter, hb, h]

theorem votesFor_delete_self (db : DB) (qid : Int) :
    votesFor (delete_question qid db) qid = 0 := by
  dsimp only [votesFor, delete_question]
  rw [List.filter_filter, List.length_eq_zero, List.filter_eq_nil_iff]
  intro v _
  simp

theorem votesFor_delete_other (db : DB) {qd qid : Int} (h : qd ≠ qid) :
    votesFor (delete_question qd db) qid = votesFor db qid := by
  dsimp only [votesFor, delete_question]
  rw [List.filter_filter]
  refine congrArg List.length (List.filter_congr ?_)
  intro v _
  cases hq : (v.question_id == qid)
  · rw [Bool.false_and]
  · rw [Bool.true_and]
    rw [beq_iff_eq] at hq
    rw [hq]
    simp only [bne_iff_ne, ne_eq]
    exact fun hh => h hh.symm

theorem votedCount_cons_insert (qt : String) (ol : List String) (m : Option String)
    (t : Nat) (rest : List Op) (qid : Int) :
    votedCount (Op.insert qt ol m t :: rest) qid = votedCount rest qid := by
  simp [votedCount, List.filter_cons]

theorem votedCount_cons_vote (q o : Int) (t : Nat) (rest : List Op) (qid : Int) :
    votedCount (Op.vote q o t :: rest) qid
      = votedCount rest qid + (if q = qid then 1 else 0) := by
  by_cases h : q = qid
  · simp [votedCount, List.filter_cons, h]
  · simp [votedCount, List.filter_cons, h]

theorem votedCount_cons_delete (q : Int) (rest : List Op) (qid : Int) :
    votedCount (Op.delete q :: rest) qid = votedCount rest qid := by
  simp [votedCount, List.filter_cons]

/-! Once a question id is absent and below the AUTOINCREMENT counter it can
never reappear: SQLite never reuses AUTOINCREMENT ids. -/

theorem not_hasQuestion_runOp {db : DB} {qid : Int} (op : Op)
    (hlt : qid < db.next_qid) (h : ¬ hasQuestion db qid) :
    qid < (runOp db op).next_qid ∧ ¬ hasQuestion (runOp db op) qid := by
  cases op with
  | insert qt ol m t =>
    constructor
    · dsimp only [runOp, insert_question_with_options]
      omega
    · intro hc
      obtain ⟨q, hq, he⟩ := hc
      dsimp only [runOp, insert_question_with_options] at hq
      rw [List.mem_append, List.mem_singleton] at hq
      rcases hq with hq | hq
      · exact h ⟨q, hq, he⟩
      · subst hq
        dsimp only at he
        omega
  | vote q o t => exact ⟨hlt, fun hc => h hc⟩
  | delete qd =>
    refine ⟨hlt, ?_⟩
    intro hc
    obtain ⟨q, hq, he⟩ := hc
    dsimp only [runOp, delete_question] at hq
    exact h ⟨q, (List.mem_filter.mp hq).1, he⟩

theorem not_hasQuestion_foldl (ops : List Op) :
    ∀ db qid, qid < db.next_qid → ¬ hasQuestion db qid →
      ¬ hasQuestion (ops.foldl runOp db) qid := by
  induction ops with
  | nil => intro db qid _ h; exact h
  | cons op rest ih =>
    intro db qid hlt h
    obtain ⟨hlt', h'⟩ := not_hasQuestion_runOp op hlt h
    rw [List.foldl_cons]
    exact ih _ _ hlt' h'

/-- Deleting a question id that matches no question row changes nothing on a
well-formed, integral state. -/
theorem delete_absent_eq {db : DB} {qd : Int} (good : GoodState db)
    (integ : VoteIntegrity db) (h : ¬ hasQuestion db qd) :
    delete_question qd db = db := by
  have hq : db.questions.filter (fun q => q.id != qd) = db.questions := by
    rw [List.filter_eq_self]
    intro q hqm
    simp only [bne_iff_ne, ne_eq]
    intro he
    exact h ⟨q, hqm, he⟩
  have ho : db.options.filter (fun o => o.question_id != qd) = db.options := by
    rw [List.filter_eq_self]
    intro o hom
    obtain ⟨q, hqm, he⟩ := good.o_ref o hom
    simp only [bne_iff_ne, ne_eq]
    intro hoe
    exact h ⟨q, hqm, by rw [he, hoe]⟩
  have hv : db.votes.filter (fun v => v.question_id != qd) = db.votes := by
    rw [List.filter_eq_self]
    intro v hvm
    obtain ⟨o, hom, _, h2⟩ := integ v hvm
    obtain ⟨q, hqm, he⟩ := good.o_ref o hom
    simp only [bne_iff_ne, ne_eq]
    intro hve
    exact h ⟨q, hqm, by rw [he, h2, hve]⟩
  exact DB.ext hq ho hv rfl rfl rfl

/-- Along a valid trace, the stored votes of a question still present in the
`questions` table are exactly those present at the start plus those recorded
by the trace. -/
theorem votesFor_trace (ops : List Op) :
    ∀ db qid, GoodState db → VoteIntegrity db → validOps db ops = true →
      hasQuestion (ops.foldl runOp db) qid →
      votesFor (ops.foldl runOp db) qid = votesFor db qid + votedCount ops qid := by
  induction ops with
  | nil =>
    intro db qid _ _ _ _
    simp [votedCount, List.filter]
  | cons op rest ih =>
    intro db qid good integ hvalid hfin
    rw [List.foldl_cons] at hfin ⊢
    cases op with
    | insert qt ol m t =>
      simp only [validOps, Bool.and_eq_true] at hvalid
      have hrec := ih (runOp db (Op.insert qt ol m t)) qid
        (goodState_runOp _ good) (voteIntegrity_insert qt ol m t integ) hvalid.2 hfin
      rw [hrec, votedCount_cons_insert]
      rfl
    | vote q o t =>
      simp only [validOps, Bool.and_eq_true] at hvalid
      have hrec := ih (runOp db (Op.vote q o t)) qid
        (goodState_runOp _ good) (voteIntegrity_vote t integ hvalid.1) hvalid.2 hfin
      rw [hrec, votedCount_cons_vote]
      have hstep := votesFor_vote db q o t qid
      dsimp only [runOp]
      rw [hstep]
      omega
    | delete qd =>
      simp only [validOps, Bool.and_eq_true] at hvalid
      rw [votedCount_cons_delete]
      by_cases hq : qd = qid
      · subst hq
        by_cases hhas : hasQuestion db qd
        · exfalso
          have h1 : ¬ hasQuestion (delete_question qd db) qd := by
            intro hc
            obtain ⟨x, hx, he⟩ := hc
            dsimp only [delete_question] at hx
            have hx2 := (List.mem_filter.mp hx).2
            rw [he] at hx2
            simp at hx2
          have h2 : qd < (delete_question qd db).next_qid := by
            obtain ⟨x, hx, he⟩ := hhas
            have hb := good.q_bound x hx
            rw [he] at hb
            exact hb
          exact not_hasQuestion_foldl rest _ qd h2 h1 hfin
        · have heq : runOp db (Op.delete qd) = db := delete_absent_eq good integ hhas
          rw [heq] at hfin hvalid ⊢
          exact ih db qd good integ hvalid.2 hfin
      · have hrec := ih (runOp db (Op.delete qd)) qid
          (goodState_runOp _ good) (voteIntegrity_delete qd integ) hvalid.2 hfin
        rw [hrec]
        dsimp only [runOp]
        rw [votesFor_delete_other db hq]

/-! Catalog lookup lemmas for the schema manager. -/

theorem lookupAssoc_append_ne (l : List (String × Table)) {n m : String} (t : Table)
    (h : m ≠ n) : lookupAssoc (l ++ [(n, t)]) m = lookupAssoc l m := by
  induction l with
  | nil =>
    dsimp only [List.nil_append, lookupAssoc]
    have hb : (n == m) = false := by
      simp only [beq_eq_false_iff_ne, ne_eq]
      exact fun he => h he.symm
    rw [hb]
    simp
  | cons p rest ih =>
    cases p with
    | mk pn pt =>
      dsimp only [List.cons_append, lookupAssoc]
      cases hpn : (pn == m)
      · exact ih
      · rfl

theorem lookupAssoc_append_self (l : List (String × Table)) {n : String} (t : Table)
    (h : lookupAssoc l n = none) : lookupAssoc (l ++ [(n, t)]) n = some t := by
  induction l with
  | nil => simp [lookupAssoc]
  | cons p rest ih =>
    cases p with
    | mk pn pt =>
      dsimp only [lookupAssoc] at h
      dsimp only [List.cons_append, lookupAssoc]
      cases hpn : (pn == n)
      · rw [hpn] at h
        exact ih h
      · rw [hpn] at h
        exact absurd h (by simp)

theorem lookupAssoc_filter_self (l : List (String × Table)) (n : String) :
    lookupAssoc (l.filter (fun p => p.1 != n)) n = none := by
  induction l with
  | nil => rfl
  | cons p rest ih =>
    cases p with
    | mk pn pt =>
      rw [List.filter_cons]
      cases hpn : ((pn, pt).1 != n)
      · rw [if_neg (by simp [hpn])]
        exact ih
      · rw [if_pos (by simp [hpn])]
        dsimp only [lookupAssoc]
        have : (pn == n) = false := by
          dsimp only at hpn
          rw [bne_iff_ne, ne_eq] at hpn
          simp [hpn]
        rw [this]
        exact ih

theorem lookupAssoc_filter_ne (l : List (String × Table)) {n m : String} (h : m ≠ n) :
    lookupAssoc (l.filter (fun p => p.1 != n)) m = lookupAssoc l m := by
  induction l with
  | nil => rfl
  | cons p rest ih =>
    cases p with
    | mk pn pt =>
      rw [List.filter_cons]
      cases hpn : ((pn, pt).1 != n)
      · rw [if_neg (by simp [hpn])]
        dsimp only at hpn
        rw [bne_eq_false_iff_eq] at hpn
        dsimp only [lookupAssoc]
        have hb : (pn == m) = false := by
          subst hpn
          simp only [beq_eq_false_iff_ne, ne_eq]
          exact fun he => h he.symm
        rw [hb]
        exact ih
      · rw [if_pos (by simp [hpn])]
        dsimp only [lookupAssoc]
        cases hm : (pn == m)
        · exact ih
        · rfl

theorem lookupTable_create_ne (s : Storage) {n m : String} (c : List String)
    (h : m ≠ n) : lookupTable (createTableIfNotExists s n c) m = lookupTable s m := by
  dsimp only [createTableIfNotExists]
  cases hl : lookupTable s n
  · dsimp only [lookupTable]
    exact lookupAssoc_append_ne s.tables _ h
  · rfl

theorem lookupTable_create_isSome (s : Storage) (n : String) (c : List String) :
    (lookupTable (createTableIfNotExists s n c) n).isSome := by
  dsimp only [createTableIfNotExists]
  cases hl : lookupTable s n
  · dsimp only [lookupTable]
    rw [lookupAssoc_append_self s.tables _ hl]
    rfl
  · rw [hl]
    rfl

theorem create_noop {s : Storage} {n : String} {c : List String} {t : Table}
    (h : lookupTable s n = some t) : createTableIfNotExists s n c = s := by
  dsimp only [createTableIfNotExists]
  rw [h]

theorem lookupTable_create_absent {s : Storage} {n : String} (c : List String)
    (h : lookupTable s n = none) :
    lookupTable (createTableIfNotExists s n c) n = some ⟨c, []⟩ := by
  dsimp only [createTableIfNotExists]
  rw [h]
  exact lookupAssoc_append_self s.tables _ h

theorem ensured_creates (s1 : Storage)
    (hv : ∀ t, lookupTable s1 "votes" = some t → "id" ∈ t.cols) :
    ensured (createTableIfNotExists (createTableIfNotExists
      (createTableIfNotExists s1 "questions" questionsCols)
      "options" optionsCols) "votes" votesCols) := by
  refine ⟨?_, ?_, ?_⟩
  · rw [lookupTable_create_ne _ _ (by decide), lookupTable_create_ne _ _ (by decide)]
    exact lookupTable_create_isSome s1 "questions" questionsCols
  · rw [lookupTable_create_ne _ _ (by decide)]
    exact lookupTable_create_isSome _ "options" optionsCols
  · cases hl : lookupTable (createTableIfNotExists (createTableIfNotExists s1
        "questions" questionsCols) "options" optionsCols) "votes"
    · rw [lookupTable_create_absent _ hl]
      exact ⟨⟨votesCols, []⟩, rfl, by decide⟩
    · rw [create_noop hl, hl]
      rename_i t
      refine ⟨t, rfl, ?_⟩
      rw [lookupTable_create_ne _ _ (by decide), lookupTable_create_ne _ _ (by decide)] at hl
      exact hv t hl

theorem ensured_ensure_schema (s : Storage) : ensured (ensure_schema s) := by
  dsimp only [ensure_schema]
  cases hl : lookupTable s "votes" with
  | none =>
    refine ensured_creates s ?_
    intro t ht
    rw [hl] at ht
    exact absurd ht (by simp)
  | some t =>
    dsimp only
    by_cases hid : "id" ∈ t.cols
    · rw [if_pos hid]
      refine ensured_creates s ?_
      intro t' ht'
      rw [hl] at ht'
      cases ht'
      exact hid
    · rw [if_neg hid]
      refine ensured_creates _ ?_
      intro t' ht'
      dsimp only [dropTable, lookupTable] at ht'
      rw [lookupAssoc_filter_self] at ht'
      exact absurd ht' (by simp)

theorem ensure_schema_noop {s : Storage} (h : ensured s) : ensure_schema s = s := by
  obtain ⟨h1, h2, t, h3, hid⟩ := h
  obtain ⟨tq, hq⟩ := Option.isSome_iff_exists.mp h1
  obtain ⟨tb, hb⟩ := Option.isSome_iff_exists.mp h2
  dsimp only [ensure_schema]
  rw [h3]
  dsimp only
  rw [if_pos hid, create_noop hq, create_noop hb, create_noop h3]

/-! Helpers for reading one option's count out of a results list. -/

theorem resultCount_map (L : List OptionRow) (g : OptionRow → Nat) (x : Int) :
    resultCount (L.map (fun o => ⟨o.option_text, g o, o.id⟩)) x
      = ((L.filter (fun o => o.id == x)).map g).sum := by
  dsimp only [resultCount]
  rw [List.filter_map, List.map_map]
  rfl

theorem count_after_vote (db : DB) (qid oid : Int) (t : Nat) (o : OptionRow) :
    ((record_vote qid oid t db).votes.filter
      (fun v => v.option_id == o.id && v.question_id == qid)).length
    = (db.votes.filter (fun v => v.option_id == o.id && v.question_id == qid)).length
      + (if oid = o.id then 1 else 0) := by
  dsimp only [record_vote]
  rw [List.filter_append, List.length_append]
  congr 1
  by_cases h : oid = o.id
  · simp [List.filter, h]
  · have hb : (oid == o.id) = false := by simp [h]
    simp [List.filter, hb, h]

theorem sum_map_succ {α : Type} (l : List α) (f : α → Nat) :
    (l.map (fun a => f a + 1)).sum = (l.map f).sum + l.length := by
  induction l with
  | nil => rfl
  | cons a l ih =>
    simp only [List.map_cons, List.sum_cons, List.length_cons, ih]
    omega

/-! Claim theorems. -/

/-- Claim C1, counterexample: the state reached by the single call
`record_vote(1, 1)` on the fresh database is reachable, yet its one vote row
references no option row at all — `record_vote` does not preserve the
referential invariant for every pair of integer arguments. -/
theorem C1_counterexample :
    Reachable (record_vote 1 1 0 initDB) ∧ ¬ VoteIntegrity (record_vote 1 1 0 initDB) :=
  ⟨⟨[Op.vote 1 1 0], rfl⟩, by decide⟩

/-- Claim C1, amended: `record_vote(question_id, option_id)` preserves the
invariant "every vote row references an option row of its question" exactly
when the given pair references an option row with that id belonging to that
question; consequently every state reached by a trace whose `record_vote`
calls all pass this check satisfies the invariant. -/
theorem C1_record_vote_integrity :
    (∀ (db : DB) (qid oid : Int) (t : Nat), VoteIntegrity db →
      optionBelongs db qid oid = true → VoteIntegrity (record_vote qid oid t db)) ∧
    (∀ ops, validOps initDB ops = true → VoteIntegrity (run ops)) :=
  ⟨fun _ _ _ t h hb => voteIntegrity_vote t h hb, fun ops h => voteIntegrity_run ops h⟩

/-- Claim C1, witness: the amended theorem applied to a concrete valid trace
(insert a two-option question, then vote for option 1 of question 1). -/
theorem C1_record_vote_integrity_witness : VoteIntegrity (run opsEx) :=
  C1_record_vote_integrity.2 opsEx (by decide)

/-- Claim C2, counterexample: after inserting a two-option question (id 1) and
recording one vote for question 1 with the dangling option id 99, question 1
is present but the counts of `get_results(1)` sum to 0 while 1 vote was
recorded for question 1. -/
theorem C2_counterexample :
    hasQuestion (run opsBad) 1 ∧
      ¬ ((get_results 1 (run opsBad)).map ResultRow.count).sum = votedCount opsBad 1 :=
  ⟨by decide, by decide⟩

/-- Claim C2, amended: along any trace whose `record_vote` calls each
reference an option belonging to the stated question, for every question id
present in the questions table `get_results` returns exactly one row per
option row of that question (same multiset of option ids), every count is
nonnegative, and the counts sum to the number of votes ever recorded for
that question id. -/
theorem C2_results_account (ops : List Op) (qid : Int)
    (hvalid : validOps initDB ops = true) (hq : hasQuestion (run ops) qid) :
    List.Perm ((get_results qid (run ops)).map ResultRow.option_id)
        (((run ops).options.filter (fun o => o.question_id == qid)).map OptionRow.id) ∧
    (∀ r ∈ get_results qid (run ops), 0 ≤ r.count) ∧
    ((get_results qid (run ops)).map ResultRow.count).sum = votedCount ops qid := by
  refine ⟨?_, ?_, ?_⟩
  · dsimp only [get_results]
    rw [List.map_map]
    exact (List.perm_insertionSort optLe _).map _
  · intro r _
    exact Nat.zero_le r.count
  · rw [get_results_counts_sum qid (goodState_run ops) (voteIntegrity_run ops hvalid)]
    have ht := votesFor_trace ops initDB qid goodState_initDB voteIntegrity_initDB hvalid hq
    rw [show votesFor (run ops) qid = votesFor initDB qid + votedCount ops qid from ht]
    simp [votesFor, initDB, List.filter]

/-- Claim C2, witness: the amended theorem applied to the concrete valid trace
that inserts a two-option question and records one valid vote for it. -/
theorem C2_results_account_witness :
    ((get_results 1 (run opsEx)).map ResultRow.count).sum = votedCount opsEx 1 :=
  (C2_results_account opsEx 1 (by decide) (by decide)).2.2

/-- Claim C3: on any well-formed state, inserting a question with a non-empty
text and at least two options and then reading it back with `get_question`
yields that question, whose options' texts in the returned ascending-id
order are exactly the input list in its original order. -/
theorem C3_insert_then_get (db : DB) (qt : String) (ol : List String)
    (m : Option String) (t : Nat) (good : GoodState db)
    (hqt : qt ≠ "") (hlen : 2 ≤ ol.length) :
    ∃ q : Question,
      get_question (insert_question_with_options qt ol m t db).1
          (insert_question_with_options qt ol m t db).2 = some q ∧
      q.question_text = qt ∧ q.options.map OptionView.text = ol := by
  dsimp only [insert_question_with_options, get_question]
  have hfind : (db.questions ++ [(⟨db.next_qid, qt, t, m⟩ : QuestionRow)]).find?
      (fun q => q.id == db.next_qid) = some ⟨db.next_qid, qt, t, m⟩ := by
    rw [find_append_left_none]
    · simp [List.find?]
    · intro x hx
      have hb := good.q_bound x hx
      simp only [beq_eq_false_iff_ne, ne_eq]
      omega
  rw [hfind]
  have hfil : (db.options ++ insertOptionsLoop db.next_qid db.next_oid ol).filter
      (fun o => o.question_id == db.next_qid)
      = insertOptionsLoop db.next_qid db.next_oid ol := by
    rw [List.filter_append, insertOptionsLoop_filter_self]
    have hnil : db.options.filter (fun o => o.question_id == db.next_qid) = [] := by
      rw [List.filter_eq_nil_iff]
      intro o ho
      obtain ⟨q, hq, he⟩ := good.o_ref o ho
      have hb := good.q_bound q hq
      simp only [beq_iff_eq]
      omega
    rw [hnil, List.nil_append]
  rw [hfil]
  rw [show sortOptionsById (insertOptionsLoop db.next_qid db.next_oid ol)
      = insertOptionsLoop db.next_qid db.next_oid ol from
    (insertOptionsLoop_sorted _ _ _).insertionSort_eq]
  refine ⟨_, rfl, rfl, ?_⟩
  rw [List.map_map]
  exact insertOptionsLoop_map_text _ _ ol

/-- Claim C3, witness: the theorem applied on the fresh database to the
spec's concrete scenario, question "Pick a color" with three options. -/
theorem C3_insert_then_get_witness :
    ∃ q : Question,
      get_question
          (insert_question_with_options "Pick a color" ["Red", "Green", "Blue"] none 0 initDB).1
          (insert_question_with_options "Pick a color" ["Red", "Green", "Blue"] none 0 initDB).2
        = some q ∧
      q.question_text = "Pick a color" ∧
      q.options.map OptionView.text = ["Red", "Green", "Blue"] :=
  C3_insert_then_get initDB "Pick a color" ["Red", "Green", "Blue"] none 0
    goodState_initDB (by decide) (by decide)

/-- Claim C4: on any well-formed state, recording a vote with an option id
that belongs to the stated question makes that option's `get_results` count
exactly one greater, and every other option id's count is unchanged by the
call (unconditionally). -/
theorem C4_vote_then_results (db : DB) (qid oid : Int) (t : Nat) (good : GoodState db) :
    (optionBelongs db qid oid = true →
      resultCount (get_results qid (record_vote qid oid t db)) oid
        = resultCount (get_results qid db) oid + 1) ∧
    (∀ oid2, oid2 ≠ oid →
      resultCount (get_results qid (record_vote qid oid t db)) oid2
        = resultCount (get_results qid db) oid2) := by
  have hafter : ∀ x : Int,
      resultCount (get_results qid (record_vote qid oid t db)) x
        = (((sortOptionsById (db.options.filter (fun o => o.question_id == qid))).filter
              (fun o => o.id == x)).map
            (fun o => ((record_vote qid oid t db).votes.filter
              (fun v => v.option_id == o.id && v.question_id == qid)).length)).sum := by
    intro x
    dsimp only [get_results, record_vote]
    exact resultCount_map _ _ x
  have hbefore : ∀ x : Int,
      resultCount (get_results qid db) x
        = (((sortOptionsById (db.options.filter (fun o => o.question_id == qid))).filter
              (fun o => o.id == x)).map
            (fun o => (db.votes.filter
              (fun v => v.option_id == o.id && v.question_id == qid)).length)).sum := by
    intro x
    dsimp only [get_results]
    exact resultCount_map _ _ x
  constructor
  · intro hb
    rw [hafter oid, hbefore oid]
    have hcong : ((sortOptionsById (db.options.filter
          (fun o => o.question_id == qid))).filter (fun o => o.id == oid)).map
            (fun o => ((record_vote qid oid t db).votes.filter
              (fun v => v.option_id == o.id && v.question_id == qid)).length)
        = ((sortOptionsById (db.options.filter
          (fun o => o.question_id == qid))).filter (fun o => o.id == oid)).map
            (fun o => (db.votes.filter
              (fun v => v.option_id == o.id && v.question_id == qid)).length + 1) := by
      refine List.map_congr_left ?_
      intro o ho
      have hid : o.id = oid := by
        have h2 := (List.mem_filter.mp ho).2
        rwa [beq_iff_eq] at h2
      rw [count_after_vote, if_pos hid.symm]
    rw [hcong, sum_map_succ]
    have hlen : ((sortOptionsById (db.options.filter
        (fun o => o.question_id == qid))).filter (fun o => o.id == oid)).length = 1 := by
      have hnd : ((db.options.filter (fun o => o.question_id == qid)).map
          OptionRow.id).Nodup :=
        good.o_nodup.sublist ((List.filter_sublist _).map _)
      have hnds : ((sortOptionsById (db.options.filter
          (fun o => o.question_id == qid))).map OptionRow.id).Nodup :=
        ((List.perm_insertionSort optLe _).map OptionRow.id).nodup_iff.mpr hnd
      have hmem : oid ∈ (sortOptionsById (db.options.filter
          (fun o => o.question_id == qid))).map OptionRow.id := by
        dsimp only [optionBelongs] at hb
        rw [List.any_eq_true] at hb
        obtain ⟨o, ho, hpo⟩ := hb
        rw [Bool.and_eq_true, beq_iff_eq, beq_iff_eq] at hpo
        rw [List.mem_map]
        refine ⟨o, ?_, hpo.1⟩
        rw [sortOptionsById, List.mem_insertionSort, List.mem_filter]
        exact ⟨ho, by rw [hpo.2]; exact beq_self_eq_true qid⟩
      have hcount := List.count_eq_one_of_mem hnds hmem
      rw [← hcount, List.count, List.countP_map, List.countP_eq_length_filter]
      rfl
    rw [hlen]
  · intro oid2 hne
    rw [hafter oid2, hbefore oid2]
    refine congrArg List.sum (List.map_congr_left ?_)
    intro o ho
    have hid : o.id = oid2 := by
      have h2 := (List.mem_filter.mp ho).2
      rwa [beq_iff_eq] at h2
    have hnot : ¬ oid = o.id := by
      rw [hid]
      exact fun he => hne (by rw [← he])
    rw [count_after_vote, if_neg hnot, Nat.add_zero]

/-- Claim C4, witness: the theorem applied to the concrete one-question
database: voting for option 1 of question 1 raises option 1's count by one
and leaves option 2's count unchanged. -/
theorem C4_vote_then_results_witness :
    resultCount (get_results 1 (record_vote 1 1 5 dbEx)) 1
        = resultCount (get_results 1 dbEx) 1 + 1 ∧
    resultCount (get_results 1 (record_vote 1 1 5 dbEx)) 2
        = resultCount (get_results 1 dbEx) 2 :=
  ⟨(C4_vote_then_results dbEx 1 1 5 (goodState_run _)).1 (by decide),
   (C4_vote_then_results dbEx 1 1 5 (goodState_run _)).2 2 (by decide)⟩

/-- Claim C5: after `delete_question(qid)`, `get_question(qid)` returns the
not-found signal and no vote or option row referencing qid remains. -/
theorem C5_delete_question (db : DB) (qid : Int) :
    get_question qid (delete_question qid db) = none ∧
    (∀ v ∈ (delete_question qid db).votes, v.question_id ≠ qid) ∧
    (∀ o ∈ (delete_question qid db).options, o.question_id ≠ qid) := by
  refine ⟨?_, ?_, ?_⟩
  · dsimp only [get_question, delete_question]
    have hfind : (db.questions.filter (fun q => q.id != qid)).find?
        (fun q => q.id == qid) = none := by
      rw [List.find?_eq_none]
      intro x hx
      have h2 := (List.mem_filter.mp hx).2
      simp only [bne_iff_ne, ne_eq] at h2
      simp [h2]
    rw [hfind]
  · intro v hv
    have h2 := (List.mem_filter.mp hv).2
    simpa using h2
  · intro o ho
    have h2 := (List.mem_filter.mp ho).2
    simpa using h2

/-- Claim C5, witness: the theorem's not-found component on the concrete
one-question database. -/
theorem C5_delete_question_witness : get_question 1 (delete_question 1 dbEx) = none :=
  (C5_delete_question dbEx 1).1

/-- Claim C6: in public vote mode, a non-numeric `q` yields the invalid-id
error with the database unchanged (no vote recorded), and a numeric `q`
matching no question yields the not-found error with the database unchanged;
both outcomes terminate the request. -/
theorem C6_public_vote_errors (qstr : String) (db : DB) :
    (parseInt qstr = none →
      public_vote_view qstr db = (ViewOutcome.invalidId, db)) ∧
    (∀ n, parseInt qstr = some n → get_question n db = none →
      public_vote_view qstr db = (ViewOutcome.notFound, db)) := by
  constructor
  · intro h
    dsimp only [public_vote_view]
    rw [h]
  · intro n h1 h2
    dsimp only [public_vote_view]
    rw [h1]
    dsimp only
    rw [h2]

/-- Claim C6, witness: the theorem applied to the concrete requests with
parameter "abc" (non-numeric) and "5" (unknown id) on the fresh database. -/
theorem C6_public_vote_errors_witness :
    public_vote_view "abc" initDB = (ViewOutcome.invalidId, initDB) ∧
    public_vote_view "5" initDB = (ViewOutcome.notFound, initDB) :=
  ⟨(C6_public_vote_errors "abc" initDB).1 (by decide),
   (C6_public_vote_errors "5" initDB).2 5 (by decide) rfl⟩

/-- Claim C7, counterexample: a spreadsheet whose first column header is
"Extra" and whose second is "Question" is accepted by the upload screen, so
acceptance does not require the first header to be "Question". -/
theorem C7_counterexample :
    uploadAccepts dfEx = true ∧ dfEx.headers.head? ≠ some "Question" :=
  ⟨by decide, by decide⟩

/-- Claim C7, amended: the upload is accepted exactly when some column header
is "Question"; a row's question text is the (first) "Question" column's cell
rendered and stripped, its options are the stripped non-missing non-blank
cells after the first position, and the row is imported if and only if the
question text is non-empty and there are at least 2 such options. -/
theorem C7_upload_import (df : DataFrame) :
    ((processUpload df).isSome = true ↔ "Question" ∈ df.headers) ∧
    (∀ l, processUpload df = some l → ∀ row ∈ df.rows,
      ((rowQText df row, rowOptions row) ∈ l ↔
        rowQText df row ≠ "" ∧ 2 ≤ (rowOptions row).length)) := by
  constructor
  · dsimp only [processUpload]
    by_cases h : uploadAccepts df = true
    · rw [if_pos h]
      simp only [Option.isSome_some, true_iff]
      dsimp only [uploadAccepts, List.contains] at h
      exact List.elem_iff.mp h
    · rw [if_neg h]
      simp only [Option.isSome_none, Bool.false_eq_true, false_iff]
      intro hmem
      exact h (List.elem_eq_true_of_mem hmem)
  · intro l hl row hrow
    dsimp only [processUpload] at hl
    by_cases h : uploadAccepts df = true
    · rw [if_pos h] at hl
      injection hl with hl
      constructor
      · intro hmem
        rw [← hl, List.mem_filterMap] at hmem
        obtain ⟨row2, _, hf⟩ := hmem
        by_cases hc : rowQText df row2 ≠ "" ∧ 2 ≤ (rowOptions row2).length
        · rw [if_pos hc] at hf
          injection hf with hf
          have h1 : rowQText df row2 = rowQText df row := congrArg Prod.fst hf
          have h2 : rowOptions row2 = rowOptions row := congrArg Prod.snd hf
          rw [← h1, ← h2]
          exact hc
        · rw [if_neg hc] at hf
          exact absurd hf (by simp)
      · intro hc
        rw [← hl, List.mem_filterMap]
        exact ⟨row, hrow, by rw [if_pos hc]⟩
    · rw [if_neg h] at hl
      exact absurd hl (by simp)

/-- Claim C7, witness: the amended theorem applied to a concrete well-formed
upload, whose single row with two options is imported. -/
theorem C7_upload_import_witness :
    (rowQText dfOk [some "Pick one", some "A", some "B"],
     rowOptions [some "Pick one", some "A", some "B"]) ∈ [("Pick one", ["A", "B"])] :=
  ((C7_upload_import dfOk).2 [("Pick one", ["A", "B"])] (by decide)
    [some "Pick one", some "A", some "B"] (by decide)).mpr (by decide)

/-- Claim C8: `ensure_schema` is idempotent — running it twice equals running
it once, on every starting storage state — and it changes nothing on a state
already carrying the current three-table schema. -/
theorem C8_ensure_schema_idempotent (s : Storage) :
    ensure_schema (ensure_schema s) = ensure_schema s ∧
    (hasCurrentSchema s → ensure_schema s = s) := by
  constructor
  · exact ensure_schema_noop (ensured_ensure_schema s)
  · intro h
    obtain ⟨h1, h2, h3⟩ := h
    rw [Option.map_eq_some'] at h1 h2 h3
    obtain ⟨tq, hq, _⟩ := h1
    obtain ⟨tb, hbb, _⟩ := h2
    obtain ⟨tv, hv, hvc⟩ := h3
    refine ensure_schema_noop ⟨?_, ?_, tv, hv, ?_⟩
    · rw [hq]; rfl
    · rw [hbb]; rfl
    · rw [hvc]; decide

/-- Claim C8, witness: the theorem applied to a concrete storage carrying the
current three-table schema. -/
theorem C8_ensure_schema_idempotent_witness :
    ensure_schema (ensure_schema storEx) = ensure_schema storEx ∧
    ensure_schema storEx = storEx :=
  ⟨(C8_ensure_schema_idempotent storEx).1,
   (C8_ensure_schema_idempotent storEx).2 (by decide)⟩

/-- Claim C9: `get_all_questions` returns all question rows as
`(id, text, created_at)` triples, ordered most-recently-created first
(non-increasing creation time). -/
theorem C9_get_all_questions_order (db : DB) :
    List.Perm (get_all_questions db)
        (db.questions.map (fun q => (q.id, q.question_text, q.created_at))) ∧
    List.Sorted qLater (get_all_questions db) :=
  ⟨List.perm_insertionSort qLater _, List.sorted_insertionSort qLater _⟩

/-- Claim C9, witness: the theorem applied to the concrete one-question
database. -/
theorem C9_get_all_questions_order_witness :
    List.Perm (get_all_questions dbEx)
        (dbEx.questions.map (fun q => (q.id, q.question_text, q.created_at))) ∧
    List.Sorted qLater (get_all_questions dbEx) :=
  C9_get_all_questions_order dbEx

/-- Claim C10: on any well-formed state, `get_results` of a question id that
matches no question row (hence no option rows) returns the empty list rather
than an error or a not-found signal. -/
theorem C10_get_results_unknown (db : DB) (qid : Int) (good : GoodState db)
    (h : ¬ hasQuestion db qid) : get_results qid db = [] := by
  dsimp only [get_results]
  have hfil : db.options.filter (fun o => o.question_id == qid) = [] := by
    rw [List.filter_eq_nil_iff]
    intro o ho
    obtain ⟨q, hq, he⟩ := good.o_ref o ho
    simp only [beq_iff_eq]
    intro heq
    exact h ⟨q, hq, by rw [he, heq]⟩
  rw [hfil]
  rfl

/-- Claim C10, witness: the theorem applied to the concrete one-question
database at the unknown question id 99. -/
theorem C10_get_results_unknown_witness : get_results 99 dbEx = [] :=
  C10_get_results_unknown dbEx 99 (goodState_run _) (by decide)

end Menti
